/-
Verification of the Translation Orchestration Subsystem of
BoxshiSL/BlumeMangaTranslator.

Shallow embedding conventions:
* `time.monotonic()` is modelled by threading an explicit clock value
  `now : ℚ` into every operation that reads the clock; `time.sleep(d)` is
  modelled by recording the slept duration (and, where the code re-reads
  the clock after sleeping, by advancing the threaded clock by `d`).
* Python floats holding timestamps and delays are modelled as rationals.
* Python `int` fields are modelled as `Int` where the source can make them
  negative or compares them with subtraction, and as `Nat` for pure
  counters that the source only increments or resets to zero.
* Exceptions become explicit result constructors (`Except` or bespoke
  inductives); mutation of an object becomes a function returning the
  updated record.
-/
import Mathlib

namespace Blume

/-! ## `translator/base.py` — `TranslatorContainer` -/

/-- Embedding of the `TranslatorContainer` dataclass
(`src/translator/base.py`).  The `extra` dict and `name` play no role in
the verified logic but are kept for shape fidelity. -/
structure TranslatorContainer where
  name : String := ""
  is_primary : Bool := false
  block_timeout_sec : ℚ := 60
  max_failures : ℕ := 3
  fail_uses : ℕ := 0
  blocked_until : Option ℚ := none
  last_used_at : ℚ := 0
  deriving Repr, DecidableEq

namespace TranslatorContainer

/-- `is_blocked` property: `blocked_until is not None and blocked_until >
time.monotonic()`. -/
def is_blocked (c : TranslatorContainer) (now : ℚ) : Bool :=
  match c.blocked_until with
  | none => false
  | some t => now < t

/-- `mark_success`: reset failure counter, clear block, stamp use time. -/
def mark_success (c : TranslatorContainer) (now : ℚ) : TranslatorContainer :=
  { c with fail_uses := 0, blocked_until := none, last_used_at := now }

/-- `mark_failure`: increment `fail_uses`, stamp use time, and when the
counter reaches `max_failures` set `blocked_until` a full
`block_timeout_sec` into the future. -/
def mark_failure (c : TranslatorContainer) (now : ℚ) : TranslatorContainer :=
  let c' := { c with fail_uses := c.fail_uses + 1, last_used_at := now }
  if c'.fail_uses ≥ c'.max_failures then
    { c' with blocked_until := some (now + c'.block_timeout_sec) }
  else
    c'

/-- `restore`: unblock and reset counters (leaves `last_used_at` alone). -/
def restore (c : TranslatorContainer) : TranslatorContainer :=
  { c with fail_uses := 0, blocked_until := none }

end TranslatorContainer

/-! ## `translator/base.py` — container selection (`Translator._get_container`) -/

/-- First index whose container has `is_primary` set (the loop in
`Translator._primary_container`). -/
def findPrimaryIdx : List TranslatorContainer → Option ℕ
  | [] => none
  | c :: rest => if c.is_primary then some 0 else (findPrimaryIdx rest).map (· + 1)

/-- `Translator._primary_container`, as an index: the first container with
`is_primary`, else index 0 when the list is non-empty, else `none`. -/
def primaryIndexOpt (cs : List TranslatorContainer) : Option ℕ :=
  match findPrimaryIdx cs with
  | some i => some i
  | none => match cs with
    | [] => none
    | _ :: _ => some 0

/-- Index the containers by their list position (container object
identity in the source becomes positional identity here). -/
def enumerate : ℕ → List TranslatorContainer → List (ℕ × TranslatorContainer)
  | _, [] => []
  | i, c :: rest => (i, c) :: enumerate (i + 1) rest

/-- Sort key used by `_get_container`:
`sorted(available, key=lambda c: (c is last_used, c.last_used_at))`.
Container identity (`c is last_used`) is modelled by the container's index
in the translator's list.  `False < True` becomes `0 < 1`. -/
def selKey (lastUsed : Option ℕ) (ic : ℕ × TranslatorContainer) : ℕ × ℚ :=
  (if lastUsed = some ic.1 then 1 else 0, ic.2.last_used_at)

/-- Strict lexicographic comparison of sort keys. -/
def keyLt (a b : ℕ × ℚ) : Bool :=
  decide (a.1 < b.1) || (decide (a.1 = b.1) && decide (a.2 < b.2))

/-- `sorted(available, key=...)[0]` for a stable sort: the first element
attaining the minimal key (a later element replaces the current best only
when its key is strictly smaller). -/
def chooseMin (lastUsed : Option ℕ) :
    List (ℕ × TranslatorContainer) → Option (ℕ × TranslatorContainer)
  | [] => none
  | x :: xs =>
    some (xs.foldl
      (fun best y => if keyLt (selKey lastUsed y) (selKey lastUsed best) then y else best) x)

/-- `Translator._get_container(prefer_primary, last_used)`.  Containers are
identified by their index; the returned pair is the chosen index together
with the updated container list (restoring the primary and stamping
`last_used_at` are in-place mutations in the source). -/
def getContainer (preferPrimary : Bool) (lastUsed : Option ℕ) (now : ℚ)
    (cs : List TranslatorContainer) : Option (ℕ × List TranslatorContainer) :=
  let avail := (enumerate 0 cs).filter (fun ic => ! ic.2.is_blocked now)
  let (avail, cs) :=
    if avail.isEmpty && preferPrimary then
      match primaryIndexOpt cs with
      | some pi =>
        match cs.get? pi with
        | some p =>
          let p' := p.restore
          ([(pi, p')], cs.set pi p')
        | none => (avail, cs)
      | none => (avail, cs)
    else (avail, cs)
  match chooseMin lastUsed avail with
  | none => none
  | some (i, c) => some (i, cs.set i { c with last_used_at := now })

/-! ## `translator/base.py` — `Translator._translate_with_failover`

The concrete engine call `_translate_request` is abstracted as an oracle
`ℕ → EngineOutcome α` indexed by the number of engine calls made so far in
the run.  `time.sleep(attempt_delay_ms / 1000)` advances the threaded
clock by `delaySec`. -/

/-- Possible outcomes of one concrete `_translate_request` call. -/
inductive EngineOutcome (α : Type) where
  | ok (r : α)
  | limited (msg : String)
  | translationError (msg : String)
  | otherError (msg : String)
  deriving Repr, DecidableEq

/-- Outcome of `_translate_with_failover`: a result, a propagated
`LimitedModeError`, or a raised `TranslationError` with the message of the
exception it was raised `from` (when any). -/
inductive FailoverResult (α : Type) where
  | ok (r : α)
  | limited (msg : String)
  | error (msg : String) (cause : Option String)
  deriving Repr, DecidableEq

/-- The two `raise TranslationError(...)` statements after the loop. -/
def failoverTerminal {α : Type} (lastError : Option String) : FailoverResult α :=
  match lastError with
  | some m => .error m (some m)
  | none => .error "No available translator containers" none

/-- The `while attempts < max_attempts` loop of
`_translate_with_failover`, with the remaining attempt budget as fuel.
Returns the result, the final container list, and the number of concrete
engine calls made. -/
def failoverGo {α : Type} (oracle : ℕ → EngineOutcome α) (delaySec : ℚ) :
    ℕ → Option ℕ → Option String → ℕ → ℚ → List TranslatorContainer →
    FailoverResult α × List TranslatorContainer × ℕ
  | 0, _, lastError, calls, _, cs => (failoverTerminal lastError, cs, calls)
  | _ + 1, none, lastError, calls, _, cs => (failoverTerminal lastError, cs, calls)
  | n + 1, some ci, lastError, calls, now, cs =>
    match cs.get? ci with
    | none => (failoverTerminal lastError, cs, calls)
    | some c =>
      match oracle calls with
      | .ok r => (.ok r, cs.set ci (c.mark_success now), calls + 1)
      | .limited m => (.limited m, cs.set ci (c.mark_failure now), calls + 1)
      | .otherError m => (.error m (some m), cs.set ci (c.mark_failure now), calls + 1)
      | .translationError m =>
        let cs1 := cs.set ci (c.mark_failure now)
        let now1 := if delaySec > 0 then now + delaySec else now
        match getContainer false (some ci) now cs1 with
        | none => failoverGo oracle delaySec n none (some m) (calls + 1) now1 cs1
        | some (ci2, cs2) => failoverGo oracle delaySec n (some ci2) (some m) (calls + 1) now1 cs2

/-- `Translator._translate_with_failover`: initial container selection with
`prefer_primary=True`, then the bounded retry loop with
`max_attempts = max(len(containers), 1) * 2`. -/
def translateWithFailover {α : Type} (oracle : ℕ → EngineOutcome α) (delaySec : ℚ)
    (now : ℚ) (cs : List TranslatorContainer) :
    FailoverResult α × List TranslatorContainer × ℕ :=
  let maxAttempts := max cs.length 1 * 2
  match getContainer true none now cs with
  | none => failoverGo oracle delaySec maxAttempts none none 0 now cs
  | some (ci, cs') => failoverGo oracle delaySec maxAttempts (some ci) none 0 now cs'

/-! ## `knowledge/context_manager.py` -/

/-- One segment of translation context: `ContextEntry`. -/
structure ContextEntry where
  original : String
  translated : String
  deriving Repr, DecidableEq

/-- `ContextManager.get_recent_context(limit)`, i.e.
`self._history[-limit:].copy()`.  Python slice semantics for a
non-negative `limit`: `-0 == 0`, so `history[-0:]` is the *whole* list,
while for `limit ≥ 1` it is the last `min(limit, len(history))` entries.
The history list itself is the manager's state; `.copy()` is the identity
on immutable lists. -/
def get_recent_context (history : List ContextEntry) (limit : ℕ) : List ContextEntry :=
  if limit = 0 then history
  else history.drop (history.length - limit)

/-- `ContextManager.add_segment`: append, then keep the last `max_length`
entries when the bound is exceeded (again via a `[-max_length:]` slice). -/
def add_segment (maxLength : ℕ) (history : List ContextEntry) (e : ContextEntry) :
    List ContextEntry :=
  let h := history ++ [e]
  if h.length > maxLength then
    if maxLength = 0 then h else h.drop (h.length - maxLength)
  else h

/-! ## `translator/base.py` — capabilities and requests -/

/-- `TranslatorCapabilities` dataclass.  Integer fields that Python could
in principle make negative are `ℤ`. -/
structure TranslatorCapabilities where
  supports_batch : Bool := false
  max_batch_size : ℤ := 1
  max_chars_per_request : Option ℤ := none
  max_chars_total : Option ℤ := none
  context_window : ℕ := 10
  attempt_delay_ms : ℤ := 600
  deriving Repr, DecidableEq

/-- `TranslationRequest`.  The `prompt_data` dict built by
`_build_prompt_payload` is carried opaquely to the engine boundary and is
constrained by no claim, so it is not modelled; the `metadata` dict holds
exactly `block_id` and `block_type` where `translate_blocks` sets them. -/
structure TranslationRequest where
  text : String
  src_lang : String := ""
  dst_lang : String := ""
  context : List ContextEntry := []
  block_id : Option String := none
  block_type : Option String := none
  deriving Repr, DecidableEq

/-! ## `translator/service.py` — `TranslationService._split_into_batches` -/

/-- Sum of `len(text)` over a batch. -/
def sumLen (batch : List TranslationRequest) : ℤ :=
  (batch.map (fun r => (r.text.length : ℤ))).sum

/-- `fits_chars = max_chars is None or (current_chars + req_len) <= max_chars`. -/
def fitsCharsB (maxChars : Option ℤ) (currentChars reqLen : ℤ) : Bool :=
  match maxChars with
  | none => true
  | some mc => decide (currentChars + reqLen ≤ mc)

/-- The accumulation loop of `_split_into_batches`, restructured as a
recursion over the remaining requests; `current`/`currentChars` are the
open batch and its accumulated character count, and closed batches are
emitted in order. -/
def splitGo (maxBatch : ℤ) (maxChars : Option ℤ) :
    List TranslationRequest → List TranslationRequest → ℤ →
    List (List TranslationRequest)
  | [], current, _ => if current ≠ [] then [current] else []
  | req :: rest, current, currentChars =>
    let reqLen : ℤ := req.text.length
    let fitsCount : Bool := decide ((current.length : ℤ) < maxBatch)
    let fitsChars : Bool := fitsCharsB maxChars currentChars reqLen
    if !current.isEmpty && (!fitsCount || !fitsChars) then
      current :: splitGo maxBatch maxChars rest [req] reqLen
    else
      splitGo maxBatch maxChars rest (current ++ [req]) (currentChars + reqLen)

/-- `TranslationService._split_into_batches(requests, capabilities)`.
`max(1, capabilities.max_batch_size or 1)` — Python `or` sends a zero
batch size to 1 before clamping from below by 1. -/
def split_into_batches (requests : List TranslationRequest)
    (caps : TranslatorCapabilities) : List (List TranslationRequest) :=
  if ! caps.supports_batch then requests.map (fun r => [r])
  else
    let maxBatch : ℤ := max 1 (if caps.max_batch_size = 0 then 1 else caps.max_batch_size)
    splitGo maxBatch caps.max_chars_per_request requests [] 0

/-! ## `translator/rate_limiter.py` -/

/-- `RateLimitConfig`. -/
structure RateLimitConfig where
  min_interval_sec : ℚ
  max_calls_per_min : ℤ
  max_chars_per_request : ℤ
  deriving Repr, DecidableEq

/-- The mutable fields of a `RateLimiter` instance. -/
structure RateLimiterState where
  last_call_ts : ℚ := 0
  window_start_ts : ℚ := 0
  window_calls : ℤ := 0
  deriving Repr, DecidableEq

/-- `BackoffState` dataclass. -/
structure BackoffState where
  penalty_delay_sec : ℚ := 0
  last_error_ts : ℚ := 0
  slow_mode : Bool := false
  slow_since : ℚ := 0
  notified : Bool := false
  deriving Repr, DecidableEq

/-- Result of a non-raising `RateLimiter.wait_or_raise` call: updated
limiter fields, updated backoff object (mutated in place in the source),
and the total time slept. -/
structure WaitOutcome where
  limiter : RateLimiterState
  backoff : Option BackoffState
  total_sleep : ℚ
  deriving Repr, DecidableEq

/-- `RateLimiter.wait_or_raise(text_length, backoff)` at clock value
`now`; every `time.sleep(d)` advances the threaded clock by `d` and adds
`d` to `total_sleep`.  The `ValueError` for over-long text becomes
`Except.error`.  Python float truthiness `backoff.last_error_ts` is
`≠ 0`. -/
def wait_or_raise (cfg : RateLimitConfig) (st : RateLimiterState)
    (text_length : ℤ) (backoff : Option BackoffState) (now : ℚ) :
    Except String WaitOutcome :=
  if text_length > cfg.max_chars_per_request then
    .error "Text too long for limited mode"
  else
    let slowMode0 := match backoff with
      | some b => b.slow_mode
      | none => false
    let cleared : Option BackoffState × Bool :=
      match backoff with
      | some b =>
        if b.slow_mode ∧ b.last_error_ts ≠ 0 then
          if now - b.last_error_ts > 300 then
            (some { b with slow_mode := false, penalty_delay_sec := 0,
                           slow_since := 0, notified := false }, false)
          else (some b, slowMode0)
        else (some b, slowMode0)
      | none => (none, slowMode0)
    let backoff := cleared.1
    let slowMode := cleared.2
    if ! slowMode then
      .ok { limiter := { st with last_call_ts := now }, backoff := backoff, total_sleep := 0 }
    else
      let winStep : RateLimiterState × ℚ × ℚ :=
        if cfg.max_calls_per_min > 0 then
          if st.window_start_ts ≤ 0 ∨ now - st.window_start_ts ≥ 60 then
            ({ st with window_start_ts := now, window_calls := 0 }, now, 0)
          else if st.window_calls ≥ cfg.max_calls_per_min then
            let waitFor := max 0 (60 - (now - st.window_start_ts))
            let now1 := if waitFor > 0 then now + waitFor else now
            ({ st with window_start_ts := now1, window_calls := 0 }, now1, waitFor)
          else (st, now, 0)
        else (st, now, 0)
      let st1 := winStep.1
      let now1 := winStep.2.1
      let sleep1 := winStep.2.2
      let sinceLast := now1 - st1.last_call_ts
      let sleep2 := if sinceLast < cfg.min_interval_sec then cfg.min_interval_sec - sinceLast else 0
      let now2 := now1 + sleep2
      let sleep3 := match backoff with
        | some b => if b.penalty_delay_sec > 0 then b.penalty_delay_sec else 0
        | none => 0
      let now3 := now2 + sleep3
      .ok { limiter := { st1 with last_call_ts := now3, window_calls := st1.window_calls + 1 },
            backoff := backoff,
            total_sleep := sleep1 + sleep2 + sleep3 }

/-- `activate_slow_mode(engine_id, reason)` acting on the engine's
`BackoffState` (the global map entry) at clock value `now`.
`state.slow_since or now` keeps a non-zero `slow_since`. -/
def activate_slow_mode (b : BackoffState) (now : ℚ) : BackoffState :=
  let was := b.slow_mode
  let b1 := { b with last_error_ts := now,
                     slow_since := if b.slow_since = 0 then now else b.slow_since,
                     slow_mode := true }
  let b2 := if ! was then { b1 with notified := false } else b1
  { b2 with penalty_delay_sec := min (max b2.penalty_delay_sec 2) 30 }

/-! ## `translator/service.py` — `TranslationService._run_with_rate_limit_retry`

The wrapped closure `fn` is abstracted by the outcomes of its first and
(when reached) second invocation. -/

/-- Outcome of one invocation of the wrapped engine call: success, a
`LimitedModeError`, or some other exception (which the wrapper lets
propagate unchanged). -/
inductive CallOutcome (α : Type) where
  | ok (r : α)
  | limited (msg : String)
  | raised (msg : String)
  deriving Repr, DecidableEq

/-- Result of `_run_with_rate_limit_retry`: a value, a propagated foreign
exception, or the terminal `TranslationError` wrapping a second
`LimitedModeError`. -/
inductive RetryOutcome (α : Type) where
  | ok (r : α)
  | raised (msg : String)
  | translationError (msg : String)
  deriving Repr, DecidableEq

/-- Observable side effects of one `_run_with_rate_limit_retry` run: the
engine's backoff state afterwards, the list of `time.sleep` durations, how
often the registered rate-limit callback fired, and how often `fn` was
invoked. -/
structure RetryTrace where
  backoff : BackoffState
  sleeps : List ℚ
  callbackCalls : ℕ
  engineCalls : ℕ
  deriving Repr, DecidableEq

/-- `TranslationService._run_with_rate_limit_retry(engine_id, fn)` at
clock value `now`, given the engine's backoff state `b` and whether a
rate-limit callback is registered.  `get_backoff_state(engine_id)` after
`activate_slow_mode` returns the updated state, so the sleep is
`max(updated penalty_delay_sec, 1.5)`. -/
def run_with_rate_limit_retry {α : Type} (call1 call2 : CallOutcome α)
    (b : BackoffState) (callbackSet : Bool) (now : ℚ) :
    RetryOutcome α × RetryTrace :=
  match call1 with
  | .ok r => (.ok r, ⟨b, [], 0, 1⟩)
  | .raised m => (.raised m, ⟨b, [], 0, 1⟩)
  | .limited _ =>
    let b1 := activate_slow_mode b now
    let cb := if callbackSet then 1 else 0
    let waitFor := max b1.penalty_delay_sec (3 / 2)
    match call2 with
    | .ok r => (.ok r, ⟨b1, [waitFor], cb, 2⟩)
    | .raised m => (.raised m, ⟨b1, [waitFor], cb, 2⟩)
    | .limited m2 => (.translationError m2, ⟨b1, [waitFor], cb, 2⟩)

/-! ## `translator/service.py` — `TranslationService.translate_blocks`

Collaborator data (`project/page_session.py`, `knowledge/models.py`)
restricted to the fields `translate_blocks` reads or writes; the
remaining `TextBlock` fields (bbox, enabled, orientation, confidence,
deleted, manual, font_size) are never touched by it. -/

/-- `TextBlock`, restricted to the fields used by `translate_blocks`. -/
structure TextBlock where
  id : String
  original_text : String
  translated_text : String := ""
  block_type : String := "dialog"
  deriving Repr, DecidableEq

/-- Title knowledge restricted to what
`_apply_glossary_and_name_fixes` reads: glossary terms as
`(source, target)` pairs and characters as
`(display_name, original_names)` pairs. -/
structure Knowledge where
  terms : List (String × String) := []
  characters : List (String × List String) := []
  deriving Repr, DecidableEq

/-- `_apply_glossary_and_name_fixes(translated, knowledge)`:
replace every term source by its target (skipping falsy, i.e. empty,
sources/targets), then every character original name by the display name
(skipping characters with an empty display name and empty names). -/
def apply_glossary_and_name_fixes (translated : String) (k : Knowledge) : String :=
  let r := k.terms.foldl
    (fun acc t => if t.1 ≠ "" ∧ t.2 ≠ "" then acc.replace t.1 t.2 else acc) translated
  k.characters.foldl
    (fun acc c =>
      if c.1 = "" then acc
      else c.2.foldl (fun acc2 n => if n ≠ "" then acc2.replace n c.1 else acc2) acc) r

/-- `not text.strip()` for a `str`: true iff the text is empty or all
whitespace (checked over the character list). -/
def isBlank (s : String) : Bool := s.data.all Char.isWhitespace

/-- The request-building loop of `translate_blocks`: walks the blocks,
sets `translated_text = ""` on blocks whose text is blank and skips them,
and pairs every other block (by position) with its `TranslationRequest`.
`history` is the context manager's history, which is only read during
this loop (`add_segment` happens strictly after translation). -/
def buildRequestPairs (history : List ContextEntry) (contextLimit : ℕ)
    (src dst : String) :
    List TextBlock → ℕ → List TextBlock × List (ℕ × TranslationRequest)
  | [], _ => ([], [])
  | b :: rest, i =>
    let (bs, ps) := buildRequestPairs history contextLimit src dst rest (i + 1)
    if isBlank b.original_text then
      ({ b with translated_text := "" } :: bs, ps)
    else
      let req : TranslationRequest :=
        { text := b.original_text, src_lang := src, dst_lang := dst,
          context := get_recent_context history contextLimit,
          block_id := some b.id, block_type := some b.block_type }
      (b :: bs, (i, req) :: ps)

/-- `block.translated_text = fixed` on the block at position `i` (object
identity in the source becomes positional identity here). -/
def setTranslated (blocks : List TextBlock) (i : ℕ) (t : String) : List TextBlock :=
  match blocks.get? i with
  | some b => blocks.set i { b with translated_text := t }
  | none => blocks

/-- The post-translation loop of `translate_blocks`: zip the request
pairs with the translated texts, apply glossary/name fixes, write each
block's `translated_text` in place, and append non-empty results to the
context history. -/
def applyResults (k : Knowledge) (maxLength : ℕ) :
    List ((ℕ × TranslationRequest) × String) → List TextBlock → List ContextEntry →
    List TextBlock × List ContextEntry
  | [], blocks, ctx => (blocks, ctx)
  | ((i, req), res) :: rest, blocks, ctx =>
    let fixed := apply_glossary_and_name_fixes res k
    let blocks1 := setTranslated blocks i fixed
    let ctx1 := if fixed ≠ "" then add_segment maxLength ctx ⟨req.text, fixed⟩ else ctx
    applyResults k maxLength rest blocks1 ctx1

/-- `TranslationService.translate_blocks`, with the translator's
(successful) batch call abstracted as `engine : batch → translated texts`
(each per-batch call is wrapped in `_run_with_rate_limit_retry`, which is
modelled separately; this is the path where every batch call returns).
Returns the mutated block list and the final context history, or the
defensive `TranslationError` on a result-count mismatch. -/
def translate_blocks (caps : TranslatorCapabilities) (k : Knowledge)
    (engine : List TranslationRequest → List String)
    (history : List ContextEntry) (maxLength contextLimit : ℕ)
    (src dst : String) (blocks : List TextBlock) :
    Except String (List TextBlock × List ContextEntry) :=
  let built := buildRequestPairs history contextLimit src dst blocks 0
  let blocks1 := built.1
  let pairs := built.2
  let requests := pairs.map (·.2)
  if requests.isEmpty then .ok (blocks1, history)
  else
    let batches := split_into_batches requests caps
    let allResults := (batches.map engine).flatten
    if allResults.length ≠ pairs.length then
      .error "Translator returned unexpected number of results"
    else
      .ok (applyResults k maxLength (pairs.zip allResults) blocks1 history)

/-! ## Theorems about the container failure/blocking state machine -/

theorem mark_failure_fail_uses (c : TranslatorContainer) (s : ℚ) :
    (c.mark_failure s).fail_uses = c.fail_uses + 1 := by
  simp only [TranslatorContainer.mark_failure]
  split <;> rfl

theorem mark_failure_max_failures (c : TranslatorContainer) (s : ℚ) :
    (c.mark_failure s).max_failures = c.max_failures := by
  simp only [TranslatorContainer.mark_failure]
  split <;> rfl

theorem mark_failure_timeout (c : TranslatorContainer) (s : ℚ) :
    (c.mark_failure s).block_timeout_sec = c.block_timeout_sec := by
  simp only [TranslatorContainer.mark_failure]
  split <;> rfl

theorem mark_failure_blocked_until (c : TranslatorContainer) (s : ℚ)
    (h : c.max_failures ≤ c.fail_uses + 1) :
    (c.mark_failure s).blocked_until = some (s + c.block_timeout_sec) := by
  simp only [TranslatorContainer.mark_failure]
  rw [if_pos]
  exact h

theorem is_blocked_of_blocked_until (c : TranslatorContainer) (T t : ℚ)
    (h : c.blocked_until = some T) : c.is_blocked t = decide (t < T) := by
  simp [TranslatorContainer.is_blocked, h]

/-- C5: once `mark_failure` raises `fail_uses` to `max_failures` or
beyond, `is_blocked` reports true throughout the `block_timeout_sec`
window and false once the window has elapsed or after `restore`; and any
`mark_success` resets `fail_uses` to 0 and clears `blocked_until`, so the
container is unblocked after any success. -/
theorem C5_container_blocking (c : TranslatorContainer) (now : ℚ)
    (h : c.max_failures ≤ c.fail_uses + 1) :
    (∀ t : ℚ, now ≤ t → t < now + c.block_timeout_sec →
        (c.mark_failure now).is_blocked t = true) ∧
    (∀ t : ℚ, now + c.block_timeout_sec ≤ t →
        (c.mark_failure now).is_blocked t = false) ∧
    (∀ t : ℚ, (c.mark_failure now).restore.is_blocked t = false) ∧
    (∀ (c' : TranslatorContainer) (s t : ℚ),
        (c'.mark_success s).fail_uses = 0 ∧
        (c'.mark_success s).blocked_until = none ∧
        (c'.mark_success s).is_blocked t = false) := by
  have hb : (c.mark_failure now).blocked_until = some (now + c.block_timeout_sec) := by
    simp only [TranslatorContainer.mark_failure]
    rw [if_pos]
    exact h
  refine ⟨?_, ?_, ?_, ?_⟩
  · intro t _ h2
    simp [TranslatorContainer.is_blocked, hb, h2]
  · intro t h2
    simp [TranslatorContainer.is_blocked, hb]
    linarith
  · intro t
    simp [TranslatorContainer.restore, TranslatorContainer.is_blocked]
  · intro c' s t
    refine ⟨rfl, rfl, ?_⟩
    simp [TranslatorContainer.mark_success, TranslatorContainer.is_blocked]

/-- Concrete container used to instantiate the container theorems. -/
def wC : TranslatorContainer := { name := "w", max_failures := 1 }

/-- Witness for C5 at a concrete container: one failure on a fresh
container with `max_failures = 1` blocks it at `t = 30`. -/
theorem C5_container_blocking_witness :
    wC.max_failures ≤ wC.fail_uses + 1 ∧ (wC.mark_failure 0).is_blocked 30 = true :=
  ⟨by decide, (C5_container_blocking wC 0 (by decide)).1 30 (by norm_num) (by norm_num [wC])⟩

/-- C10: expiry of the block window alone never resets `fail_uses`: after
`block_timeout_sec` elapses the container reports unblocked while keeping
its failure count, so the very next `mark_failure` immediately re-blocks
it for another full window; `mark_failure` always increments `fail_uses`,
and only `mark_success` or `restore` set it back to 0. -/
theorem C10_block_expiry_keeps_failures (c : TranslatorContainer) (now : ℚ)
    (h : c.max_failures ≤ c.fail_uses + 1) :
    ((c.mark_failure now).fail_uses = c.fail_uses + 1) ∧
    (∀ t : ℚ, now + c.block_timeout_sec ≤ t →
        (c.mark_failure now).is_blocked t = false ∧
        ((c.mark_failure now).mark_failure t).blocked_until =
          some (t + c.block_timeout_sec) ∧
        (∀ u : ℚ, t ≤ u → u < t + c.block_timeout_sec →
            ((c.mark_failure now).mark_failure t).is_blocked u = true)) ∧
    (∀ (c' : TranslatorContainer) (s : ℚ),
        (c'.mark_failure s).fail_uses = c'.fail_uses + 1 ∧
        (c'.mark_success s).fail_uses = 0 ∧
        c'.restore.fail_uses = 0) := by
  have hb := mark_failure_blocked_until c now h
  refine ⟨mark_failure_fail_uses c now, ?_,
    fun c' s => ⟨mark_failure_fail_uses c' s, rfl, rfl⟩⟩
  intro t ht
  have h2 : (c.mark_failure now).max_failures ≤ (c.mark_failure now).fail_uses + 1 := by
    rw [mark_failure_max_failures, mark_failure_fail_uses]
    omega
  have hb2 := mark_failure_blocked_until (c.mark_failure now) t h2
  rw [mark_failure_timeout] at hb2
  refine ⟨?_, hb2, ?_⟩
  · rw [is_blocked_of_blocked_until _ _ t hb]
    simp only [decide_eq_false_iff_not, not_lt]
    exact ht
  · intro u _ hu2
    rw [is_blocked_of_blocked_until _ _ u hb2]
    simp only [decide_eq_true_eq]
    exact hu2

/-- Witness for C10: the concrete container `wC`, blocked at time 0,
is unblocked at `t = 60` with its failure count intact, and the next
`mark_failure` re-blocks it through `u = 90`. -/
theorem C10_block_expiry_keeps_failures_witness :
    wC.max_failures ≤ wC.fail_uses + 1 ∧
    (wC.mark_failure 0).is_blocked 60 = false ∧
    (wC.mark_failure 0).fail_uses = 1 ∧
    ((wC.mark_failure 0).mark_failure 60).is_blocked 90 = true := by
  have h := C10_block_expiry_keeps_failures wC 0 (by decide)
  have h60 := h.2.1 60 (by norm_num [wC])
  exact ⟨by decide, h60.1, h.1, h60.2.2 90 (by norm_num) (by norm_num [wC])⟩

/-! ## Theorems about `ContextManager.get_recent_context` (C9) -/

/-- Concrete context entries for counterexamples and witnesses. -/
def e0 : ContextEntry := ⟨"早い", "fast"⟩

def e1 : ContextEntry := ⟨"遅い", "slow"⟩

/-- C9 counterexample: with `limit = 0`, the Python slice
`history[-0:]` is `history[0:]`, so the whole history is returned — not
at most 0 entries. -/
theorem C9_counterexample :
    get_recent_context [e0] 0 = [e0] ∧
    ¬ ((get_recent_context [e0] 0).length ≤ 0) := by
  constructor
  · rfl
  · decide

/-- C9 amended: for every positive `limit`, `get_recent_context` returns
exactly the last `limit` entries (at most `limit` of them, a suffix of
the history, hence the most recent entries in oldest-first order); for
`limit = 0` the entire history is returned. -/
theorem C9_recent_context (history : List ContextEntry) (limit : ℕ) :
    (1 ≤ limit →
      get_recent_context history limit = history.drop (history.length - limit) ∧
      (get_recent_context history limit).length ≤ limit ∧
      get_recent_context history limit <:+ history) ∧
    get_recent_context history 0 = history := by
  constructor
  · intro h
    have hne : limit ≠ 0 := by omega
    have heq : get_recent_context history limit =
        history.drop (history.length - limit) := by
      simp [get_recent_context, hne]
    refine ⟨heq, ?_, ?_⟩
    · rw [heq, List.length_drop]
      omega
    · rw [heq]
      exact List.drop_suffix _ _
  · simp [get_recent_context]

/-- Witness for C9 at a concrete history and `limit = 1`. -/
theorem C9_recent_context_witness :
    1 ≤ 1 ∧ get_recent_context [e0, e1] 1 = [e0, e1].drop 1 ∧
      (get_recent_context [e0, e1] 1).length ≤ 1 :=
  ⟨by decide, ((C9_recent_context [e0, e1] 1).1 (by decide)).1,
    ((C9_recent_context [e0, e1] 1).1 (by decide)).2.1⟩

/-! ## Theorems about `TranslationService._split_into_batches` (C1) -/

/-- What the code guarantees for an emitted batch: the count limit holds,
and the character limit holds unless the batch is a lone request whose
text alone exceeds it. -/
def batchOK (maxBatch : ℤ) (maxChars : Option ℤ) (b : List TranslationRequest) : Prop :=
  (b.length : ℤ) ≤ maxBatch ∧
  ∀ mc, maxChars = some mc → sumLen b ≤ mc ∨ ∃ r, b = [r] ∧ mc < (r.text.length : ℤ)

theorem sumLen_nil : sumLen [] = 0 := rfl

theorem sumLen_append_single (a : List TranslationRequest) (r : TranslationRequest) :
    sumLen (a ++ [r]) = sumLen a + (r.text.length : ℤ) := by
  simp [sumLen]

theorem batchOK_single {maxBatch : ℤ} {maxChars : Option ℤ} (hmb : 1 ≤ maxBatch)
    (r : TranslationRequest) : batchOK maxBatch maxChars [r] := by
  refine ⟨by simpa using hmb, ?_⟩
  intro mc _
  by_cases hc : sumLen [r] ≤ mc
  · exact Or.inl hc
  · refine Or.inr ⟨r, rfl, ?_⟩
    have : sumLen [r] = (r.text.length : ℤ) := by simp [sumLen]
    omega

theorem fitsCharsB_true (maxChars : Option ℤ) (a b : ℤ)
    (h : fitsCharsB maxChars a b = true) :
    ∀ mc, maxChars = some mc → a + b ≤ mc := by
  intro mc hmc
  subst hmc
  simpa [fitsCharsB] using h

theorem splitGo_spec (maxBatch : ℤ) (maxChars : Option ℤ) (hmb : 1 ≤ maxBatch) :
    ∀ (reqs current : List TranslationRequest),
      (current = [] ∨ batchOK maxBatch maxChars current) →
      (∀ b ∈ splitGo maxBatch maxChars reqs current (sumLen current),
          batchOK maxBatch maxChars b) ∧
      (splitGo maxBatch maxChars reqs current (sumLen current)).flatten =
        current ++ reqs := by
  intro reqs
  induction reqs with
  | nil =>
    intro current hcur
    by_cases h : current = []
    · subst h
      simp [splitGo]
    · simp only [splitGo]
      simp only [ne_eq, h, not_false_eq_true, if_true]
      refine ⟨?_, by simp⟩
      intro b hb
      rcases List.mem_singleton.mp hb with rfl
      exact hcur.resolve_left h
  | cons req rest ih =>
    intro current hcur
    simp only [splitGo]
    split
    · rename_i hclose
      have hne : current ≠ [] := by
        rcases Bool.and_eq_true_iff.mp hclose with ⟨h1, _⟩
        simpa [List.isEmpty_iff] using h1
      have hsingle : sumLen [req] = (req.text.length : ℤ) := by simp [sumLen]
      have ihres := ih [req] (Or.inr (batchOK_single hmb req))
      rw [hsingle] at ihres
      refine ⟨?_, ?_⟩
      · intro b hb
        rcases List.mem_cons.mp hb with rfl | hb2
        · exact hcur.resolve_left hne
        · exact ihres.1 b hb2
      · simp only [List.flatten_cons, ihres.2]
        simp
    · rename_i hclose
      have happ : sumLen current + (req.text.length : ℤ) = sumLen (current ++ [req]) := by
        rw [sumLen_append_single]
      have hok : batchOK maxBatch maxChars (current ++ [req]) := by
        by_cases hc0 : current = []
        · subst hc0
          simpa using batchOK_single hmb req
        · have hipe : current.isEmpty = false := by
            simpa [List.isEmpty_iff] using hc0
          have hcount : decide ((current.length : ℤ) < maxBatch) = true := by
            by_contra hcnt
            have hcnt' : decide ((current.length : ℤ) < maxBatch) = false := by
              simpa using hcnt
            exact hclose (by simp [hipe, hcnt'])
          have hchars : fitsCharsB maxChars (sumLen current) (req.text.length : ℤ) = true := by
            by_contra hch
            have hch' : fitsCharsB maxChars (sumLen current) (req.text.length : ℤ) = false := by
              simpa using hch
            exact hclose (by simp [hipe, hch'])
          have hcount' : (current.length : ℤ) < maxBatch := of_decide_eq_true hcount
          rcases hcur with h | hcur'
          · exact absurd h hc0
          refine ⟨?_, ?_⟩
          · rw [List.length_append, List.length_singleton]
            push_cast
            omega
          · intro mc hmc
            have hchars' : sumLen current + (req.text.length : ℤ) ≤ mc :=
              fitsCharsB_true maxChars _ _ hchars mc hmc
            left
            rw [← happ]
            exact hchars'
      have ihres := ih (current ++ [req]) (Or.inr hok)
      rw [← happ] at ihres
      refine ⟨ihres.1, ?_⟩
      rw [ihres.2, List.append_assoc]
      simp

/-- C1 counterexample input: a batchable engine with a 5-character batch
budget and a single 10-character request. -/
def capsC1 : TranslatorCapabilities :=
  { supports_batch := true, max_batch_size := 10, max_chars_per_request := some 5 }

def reqOversize : TranslationRequest := { text := "0123456789" }

/-- C1 counterexample: the splitter emits the oversized request as a
singleton batch whose character sum (10) exceeds
`max_chars_per_request = 5`, refuting the claim's unconditional
char-sum bound. -/
theorem C1_counterexample :
    split_into_batches [reqOversize] capsC1 = [[reqOversize]] ∧
    capsC1.max_chars_per_request = some 5 ∧
    ¬ (sumLen [reqOversize] ≤ (5 : ℤ)) := by
  refine ⟨?_, rfl, by decide⟩
  rfl

/-- C1 amended: for every batch-capable engine with
`max_batch_size ≥ 1`, every produced batch has at most `max_batch_size`
requests; when `max_chars_per_request` is set, every batch either has
total text length within the limit or is a singleton whose lone request
alone exceeds it; and concatenating the batches in order reproduces the
original request order. -/
theorem C1_batch_splitter (caps : TranslatorCapabilities)
    (requests : List TranslationRequest)
    (h1 : caps.supports_batch = true) (h2 : 1 ≤ caps.max_batch_size) :
    (∀ b ∈ split_into_batches requests caps,
        (b.length : ℤ) ≤ caps.max_batch_size) ∧
    (∀ b ∈ split_into_batches requests caps,
        ∀ mc, caps.max_chars_per_request = some mc →
          sumLen b ≤ mc ∨ ∃ r, b = [r] ∧ mc < (r.text.length : ℤ)) ∧
    (split_into_batches requests caps).flatten = requests := by
  have hz : caps.max_batch_size ≠ 0 := by omega
  have hmb : max 1 (if caps.max_batch_size = 0 then 1 else caps.max_batch_size) =
      caps.max_batch_size := by
    rw [if_neg hz]
    omega
  have hspec := splitGo_spec caps.max_batch_size caps.max_chars_per_request h2 requests []
    (Or.inl rfl)
  rw [sumLen_nil] at hspec
  have hunfold : split_into_batches requests caps =
      splitGo caps.max_batch_size caps.max_chars_per_request requests [] 0 := by
    simp [split_into_batches, h1, hmb]
  rw [hunfold]
  refine ⟨fun b hb => (hspec.1 b hb).1, fun b hb => (hspec.1 b hb).2, ?_⟩
  simpa using hspec.2

/-- Witness inputs for C1: spec scenario A — `max_batch_size = 2`,
`max_chars = 100`, three 40-character requests. -/
def capsW : TranslatorCapabilities :=
  { supports_batch := true, max_batch_size := 2, max_chars_per_request := some 100 }

def reqW1 : TranslationRequest := { text := String.mk (List.replicate 40 'a') }

def reqW2 : TranslationRequest := { text := String.mk (List.replicate 40 'b') }

def reqW3 : TranslationRequest := { text := String.mk (List.replicate 40 'c') }

/-- Witness for C1 at spec scenario A. -/
theorem C1_batch_splitter_witness :
    capsW.supports_batch = true ∧ 1 ≤ capsW.max_batch_size ∧
    (split_into_batches [reqW1, reqW2, reqW3] capsW).flatten = [reqW1, reqW2, reqW3] :=
  ⟨rfl, by decide, (C1_batch_splitter capsW [reqW1, reqW2, reqW3] rfl (by decide)).2.2⟩

/-! ## Theorems about the rate-limit retry wrapper (C4) -/

theorem activate_slow_mode_slow (b : BackoffState) (now : ℚ) :
    (activate_slow_mode b now).slow_mode = true := by
  simp only [activate_slow_mode]
  split <;> rfl

/-- C4: the rate-limit retry wrapper of the Translation Service —
a first-call success is returned with no sleep, no callback and no
backoff change; a first-call `LimitedModeError` activates slow mode,
fires the registered callback exactly once when set, sleeps exactly
`max(penalty_delay_sec, 1.5)` (hence at least 1.5s and at least the
current penalty delay) and invokes the call a second time; a second
`LimitedModeError` surfaces as a terminal `TranslationError`. -/
theorem C4_rate_limit_retry {α : Type} (call2 : CallOutcome α) (b : BackoffState)
    (cbSet : Bool) (now : ℚ) :
    (∀ r : α, run_with_rate_limit_retry (CallOutcome.ok r) call2 b cbSet now =
        (RetryOutcome.ok r, ⟨b, [], 0, 1⟩)) ∧
    (∀ m : String,
        (run_with_rate_limit_retry (CallOutcome.limited m) call2 b cbSet now).2 =
          ⟨activate_slow_mode b now,
           [max (activate_slow_mode b now).penalty_delay_sec (3 / 2)],
           if cbSet then 1 else 0, 2⟩ ∧
        (activate_slow_mode b now).slow_mode = true ∧
        (3 / 2 : ℚ) ≤ max (activate_slow_mode b now).penalty_delay_sec (3 / 2) ∧
        (activate_slow_mode b now).penalty_delay_sec ≤
          max (activate_slow_mode b now).penalty_delay_sec (3 / 2)) ∧
    (∀ m m2 : String,
        (run_with_rate_limit_retry (CallOutcome.limited m : CallOutcome α)
            (CallOutcome.limited m2) b cbSet now).1 =
          RetryOutcome.translationError m2) := by
  refine ⟨fun r => rfl, ?_, fun m m2 => rfl⟩
  intro m
  refine ⟨?_, activate_slow_mode_slow b now, le_max_right _ _, le_max_left _ _⟩
  cases call2 <;> rfl

/-! ## Theorems about `RateLimiter.wait_or_raise` slow-mode auto-clear (C7) -/

/-- C7: a `wait_or_raise` call in slow mode with a recorded last error
more than 300 seconds in the past clears slow mode (`slow_mode = false`,
`penalty_delay_sec = 0`, `slow_since = 0`, `notified = false`) and takes
the fast path: it returns with zero total sleep, merely recording the
call time. -/
theorem C7_slow_mode_autoclear (cfg : RateLimitConfig) (st : RateLimiterState)
    (text_length : ℤ) (b : BackoffState) (now : ℚ)
    (h1 : b.slow_mode = true) (h2 : b.last_error_ts ≠ 0)
    (h3 : 300 < now - b.last_error_ts)
    (h4 : text_length ≤ cfg.max_chars_per_request) :
    wait_or_raise cfg st text_length (some b) now =
      .ok { limiter := { st with last_call_ts := now },
            backoff := some ({ b with slow_mode := false, penalty_delay_sec := 0, slow_since := 0, notified := false }),
            total_sleep := 0 } := by
  have hlen : ¬ text_length > cfg.max_chars_per_request := by omega
  simp only [wait_or_raise]
  rw [if_neg hlen]
  simp [h1, h2, h3]

/-- Concrete inputs for the C7 witness. -/
def cfg7 : RateLimitConfig := { min_interval_sec := 4, max_calls_per_min := 10,
                                max_chars_per_request := 800 }

def b7 : BackoffState := { penalty_delay_sec := 5, last_error_ts := 10,
                           slow_mode := true, slow_since := 10, notified := true }

/-- Witness for C7: a slow-mode state whose last error is 390 seconds old
is cleared and the call returns with no sleep. -/
theorem C7_slow_mode_autoclear_witness :
    b7.slow_mode = true ∧ b7.last_error_ts ≠ 0 ∧ (300 : ℚ) < 400 - b7.last_error_ts ∧
    (100 : ℤ) ≤ cfg7.max_chars_per_request ∧
    wait_or_raise cfg7 {} 100 (some b7) 400 =
      .ok { limiter := { last_call_ts := 400, window_start_ts := 0, window_calls := 0 },
            backoff := some ({ penalty_delay_sec := 0, last_error_ts := 10, slow_mode := false, slow_since := 0, notified := false }),
            total_sleep := 0 } := by
  refine ⟨rfl, by norm_num [b7], by norm_num [b7], by norm_num [cfg7], ?_⟩
  exact C7_slow_mode_autoclear cfg7 {} 100 b7 400 rfl (by norm_num [b7])
    (by norm_num [b7]) (by norm_num [cfg7])

/-! ## Theorems about `_translate_with_failover` (C3, C2) -/

/-- C3: when the concrete engine call raises `LimitedModeError` during
failover, the translator marks the current container as failed and
re-raises the same error immediately: the loop ends with exactly this one
additional engine call, no other container is touched or tried, no sleep
happens, and the error is not converted to another type. -/
theorem C3_limited_reraise {α : Type} (oracle : ℕ → EngineOutcome α) (delaySec : ℚ)
    (n ci calls : ℕ) (lastError : Option String) (now : ℚ)
    (cs : List TranslatorContainer) (c : TranslatorContainer) (m : String)
    (hc : cs.get? ci = some c) (ho : oracle calls = .limited m) :
    failoverGo oracle delaySec (n + 1) (some ci) lastError calls now cs =
      (.limited m, cs.set ci (c.mark_failure now), calls + 1) := by
  simp only [failoverGo, hc, ho]

/-- Concrete container and rate-limited oracle for the C3 witness. -/
def cX : TranslatorContainer := { name := "x" }

def oracleL : ℕ → EngineOutcome Unit := fun _ => .limited "rate limited"

/-- Witness for C3: one engine call raising `LimitedModeError` on the
single container ends the failover run at once with the same error. -/
theorem C3_limited_reraise_witness :
    [cX].get? 0 = some cX ∧ oracleL 0 = .limited "rate limited" ∧
    failoverGo oracleL (3 / 5) 1 (some 0) none 0 0 [cX] =
      (.limited "rate limited", [cX.mark_failure 0], 1) :=
  ⟨rfl, rfl, C3_limited_reraise oracleL (3 / 5) 0 0 0 none 0 [cX] cX "rate limited" rfl rfl⟩

theorem failoverGo_calls_le {α : Type} (oracle : ℕ → EngineOutcome α) (delaySec : ℚ) :
    ∀ (fuel : ℕ) (cont : Option ℕ) (lastError : Option String) (calls : ℕ) (now : ℚ)
      (cs : List TranslatorContainer),
      (failoverGo oracle delaySec fuel cont lastError calls now cs).2.2 ≤ calls + fuel := by
  intro fuel
  induction fuel with
  | zero =>
    intro cont lastError calls now cs
    simp [failoverGo]
  | succ n ih =>
    intro cont lastError calls now cs
    match cont with
    | none => simp [failoverGo]
    | some ci =>
      cases hget : cs.get? ci with
      | none =>
        simp only [failoverGo, hget]
        omega
      | some c =>
        cases horacle : oracle calls with
        | ok r =>
          simp only [failoverGo, hget, horacle]
          omega
        | limited m =>
          simp only [failoverGo, hget, horacle]
          omega
        | otherError m =>
          simp only [failoverGo, hget, horacle]
          omega
        | translationError m =>
          simp only [failoverGo, hget, horacle]
          cases hsel : getContainer false (some ci)
              now (cs.set ci (c.mark_failure now)) with
          | none =>
            simp only [hsel]
            have := ih none (some m) (calls + 1)
              (if delaySec > 0 then now + delaySec else now)
              (cs.set ci (c.mark_failure now))
            omega
          | some p =>
            simp only [hsel]
            have := ih (some p.1) (some m) (calls + 1)
              (if delaySec > 0 then now + delaySec else now) p.2
            omega

theorem failoverTerminal_shape {α : Type} (lastError : Option String)
    (m : String) (cause : Option String)
    (h : (failoverTerminal lastError : FailoverResult α) = .error m cause) :
    cause = some m ∨ (cause = none ∧ m = "No available translator containers") := by
  cases lastError with
  | none =>
    simp only [failoverTerminal, FailoverResult.error.injEq] at h
    exact Or.inr ⟨h.2.symm, h.1.symm⟩
  | some l =>
    simp only [failoverTerminal, FailoverResult.error.injEq] at h
    obtain ⟨h1, h2⟩ := h
    subst h1
    exact Or.inl h2.symm

theorem failoverGo_error_shape {α : Type} (oracle : ℕ → EngineOutcome α) (delaySec : ℚ) :
    ∀ (fuel : ℕ) (cont : Option ℕ) (lastError : Option String) (calls : ℕ) (now : ℚ)
      (cs : List TranslatorContainer) (m : String) (cause : Option String),
      (failoverGo oracle delaySec fuel cont lastError calls now cs).1 = .error m cause →
      cause = some m ∨ (cause = none ∧ m = "No available translator containers") := by
  intro fuel
  induction fuel with
  | zero =>
    intro cont lastError calls now cs m cause h
    exact failoverTerminal_shape lastError m cause h
  | succ n ih =>
    intro cont lastError calls now cs m cause h
    match cont with
    | none => exact failoverTerminal_shape lastError m cause h
    | some ci =>
      cases hget : cs.get? ci with
      | none =>
        rw [failoverGo, hget] at h
        exact failoverTerminal_shape lastError m cause h
      | some c =>
        cases horacle : oracle calls with
        | ok r =>
          rw [failoverGo, hget, horacle] at h
          exact absurd h (by simp)
        | limited m2 =>
          rw [failoverGo, hget, horacle] at h
          exact absurd h (by simp)
        | otherError m2 =>
          rw [failoverGo, hget, horacle] at h
          simp only [FailoverResult.error.injEq] at h
          obtain ⟨h1, h2⟩ := h
          subst h1
          exact Or.inl h2.symm
        | translationError m2 =>
          rw [failoverGo, hget, horacle] at h
          cases hsel : getContainer false (some ci)
              now (cs.set ci (c.mark_failure now)) with
          | none =>
            simp only [hsel] at h
            exact ih none (some m2) (calls + 1) _ _ m cause h
          | some p =>
            simp only [hsel] at h
            exact ih (some p.1) (some m2) (calls + 1) _ _ m cause h

/-- C2: for a translator with at least one container, a failover run
makes at most `2 × number_of_containers` engine calls, this cap is at
least 2, and every raised terminal `TranslationError` wraps the last
underlying error when one occurred (otherwise it is the fixed
no-available-containers error with no cause). -/
theorem C2_failover_attempt_cap {α : Type} (oracle : ℕ → EngineOutcome α)
    (delaySec now : ℚ) (cs : List TranslatorContainer) (h : 1 ≤ cs.length) :
    (translateWithFailover oracle delaySec now cs).2.2 ≤ 2 * cs.length ∧
    2 ≤ 2 * cs.length ∧
    ∀ (m : String) (cause : Option String),
      (translateWithFailover oracle delaySec now cs).1 = .error m cause →
      cause = some m ∨ (cause = none ∧ m = "No available translator containers") := by
  have hmax : max cs.length 1 = cs.length := by omega
  refine ⟨?_, by omega, ?_⟩
  · unfold translateWithFailover
    cases hsel : getContainer true none now cs with
    | none =>
      simp only [hsel]
      have := failoverGo_calls_le oracle delaySec (max cs.length 1 * 2) none none 0 now cs
      omega
    | some p =>
      simp only [hsel]
      have := failoverGo_calls_le oracle delaySec (max cs.length 1 * 2) (some p.1) none 0 now p.2
      omega
  · intro m cause herr
    unfold translateWithFailover at herr
    cases hsel : getContainer true none now cs with
    | none =>
      rw [hsel] at herr
      exact failoverGo_error_shape oracle delaySec _ none none 0 now cs m cause herr
    | some p =>
      rw [hsel] at herr
      exact failoverGo_error_shape oracle delaySec _ (some p.1) none 0 now p.2 m cause herr

/-- Oracle for the C2 witness: the engine call always succeeds. -/
def oracleOk : ℕ → EngineOutcome Unit := fun _ => .ok ()

/-- Witness for C2 at a single-container translator with a succeeding
engine: one engine call, within the cap of two. -/
theorem C2_failover_attempt_cap_witness :
    1 ≤ [cX].length ∧
    (translateWithFailover oracleOk (3 / 5) 0 [cX]).2.2 ≤ 2 * [cX].length :=
  ⟨by decide, (C2_failover_attempt_cap oracleOk (3 / 5) 0 [cX] (by decide)).1⟩


/-! ## Theorems about container selection under total blocking (C6) -/

theorem enumerate_filter_blocked (now : ℚ) :
    ∀ (cs : List TranslatorContainer) (i : ℕ),
      (∀ c ∈ cs, c.is_blocked now = true) →
      (enumerate i cs).filter (fun ic => ! ic.2.is_blocked now) = [] := by
  intro cs
  induction cs with
  | nil => intro i _; rfl
  | cons c rest ih =>
    intro i hall
    have hc : c.is_blocked now = true := hall c (List.mem_cons_self c rest)
    have hrest := ih (i + 1) (fun c' hc' => hall c' (List.mem_cons_of_mem c hc'))
    simp [enumerate, List.filter_cons, hc, hrest]

theorem findPrimaryIdx_get :
    ∀ (cs : List TranslatorContainer) (i : ℕ),
      findPrimaryIdx cs = some i → ∃ p, cs.get? i = some p := by
  intro cs
  induction cs with
  | nil => intro i h; simp [findPrimaryIdx] at h
  | cons c rest ih =>
    intro i h
    simp only [findPrimaryIdx] at h
    by_cases hp : c.is_primary
    · rw [if_pos hp] at h
      injection h with h
      subst h
      exact ⟨c, rfl⟩
    · rw [if_neg hp] at h
      cases hf : findPrimaryIdx rest with
      | none => rw [hf] at h; simp at h
      | some j =>
        rw [hf] at h
        simp only [Option.map_some'] at h
        obtain ⟨p, hp2⟩ := ih j hf
        injection h with h
        subst h
        exact ⟨p, by simpa using hp2⟩

theorem primaryIndexOpt_get (cs : List TranslatorContainer) (hne : cs ≠ []) :
    ∃ pi p, primaryIndexOpt cs = some pi ∧ cs.get? pi = some p := by
  cases hf : findPrimaryIdx cs with
  | some i =>
    obtain ⟨p, hp⟩ := findPrimaryIdx_get cs i hf
    exact ⟨i, p, by simp [primaryIndexOpt, hf], hp⟩
  | none =>
    cases cs with
    | nil => exact absurd rfl hne
    | cons c rest => exact ⟨0, c, by simp [primaryIndexOpt, hf], rfl⟩

/-- When every container is blocked and `prefer_primary` is set,
`_get_container` force-restores the primary and returns it with a fresh
use stamp. -/
theorem getContainer_all_blocked (cs : List TranslatorContainer) (lastUsed : Option ℕ)
    (now : ℚ) (hne : cs ≠ []) (hall : ∀ c ∈ cs, c.is_blocked now = true) :
    ∃ pi p, primaryIndexOpt cs = some pi ∧ cs.get? pi = some p ∧
      getContainer true lastUsed now cs =
        some (pi, cs.set pi { p.restore with last_used_at := now }) := by
  obtain ⟨pi, p, hpi, hget⟩ := primaryIndexOpt_get cs hne
  refine ⟨pi, p, hpi, hget, ?_⟩
  have hfil := enumerate_filter_blocked now cs 0 hall
  have hget' : cs[pi]? = some p := by
    rw [← List.get?_eq_getElem?]
    exact hget
  simp [getContainer, hfil, hpi, hget', chooseMin, List.set_set]

/-- Single blocked container and oracle for the C6 counterexample: the
first engine call fails with a general `TranslationError`, any further
call would succeed. -/
def c6 : TranslatorContainer := { name := "only", is_primary := true, max_failures := 1 }

def oracle6 : ℕ → EngineOutcome String
  | 0 => .translationError "boom"
  | _ + 1 => .ok "done"

theorem getContainer_single_blocked (c : TranslatorContainer) (lu : Option ℕ) (now : ℚ)
    (h : c.is_blocked now = true) : getContainer false lu now [c] = none := by
  simp [getContainer, enumerate, h, chooseMin]

theorem failoverGo_te_none {α : Type} (oracle : ℕ → EngineOutcome α) (delaySec : ℚ)
    (n ci calls : ℕ) (lastError : Option String) (now : ℚ)
    (cs : List TranslatorContainer) (c : TranslatorContainer) (m : String)
    (hc : cs.get? ci = some c) (ho : oracle calls = .translationError m)
    (hsel : getContainer false (some ci) now (cs.set ci (c.mark_failure now)) = none) :
    failoverGo oracle delaySec (n + 1 + 1) (some ci) lastError calls now cs =
      (failoverTerminal (some m), cs.set ci (c.mark_failure now), calls + 1) := by
  simp only [failoverGo, hc, ho, hsel]

theorem c6_mark_failure_eq : c6.mark_failure 0 =
    { name := "only", is_primary := true, block_timeout_sec := 60, max_failures := 1,
      fail_uses := 1, blocked_until := some 60, last_used_at := 0 } := by
  simp [c6, TranslatorContainer.mark_failure]

theorem c6_mark_failure_blocked : (c6.mark_failure 0).is_blocked 0 = true := by
  rw [c6_mark_failure_eq]
  simp only [TranslatorContainer.is_blocked]
  norm_num

/-- C6 counterexample: after the first failure blocks the only (primary)
container, the mid-loop reselection (`prefer_primary=False`) happens at a
moment when every container is blocked, yet it returns no container
instead of restoring the primary, and the run fails after a single engine
call even though the next engine call would have succeeded. -/
theorem C6_counterexample :
    (∀ c ∈ [c6.mark_failure 0], c.is_blocked 0 = true) ∧
    getContainer false (some 0) 0 [c6.mark_failure 0] = none ∧
    translateWithFailover oracle6 (3 / 5) 0 [c6] =
      (.error "boom" (some "boom"), [c6.mark_failure 0], 1) ∧
    oracle6 1 = .ok "done" := by
  have hb := c6_mark_failure_blocked
  have hsel2 : getContainer false (some 0) 0 [c6.mark_failure 0] = none :=
    getContainer_single_blocked (c6.mark_failure 0) (some 0) 0 hb
  refine ⟨?_, hsel2, ?_, rfl⟩
  · intro c hc
    rcases List.mem_singleton.mp hc with rfl
    exact hb
  · have hstep : translateWithFailover oracle6 (3 / 5) 0 [c6] =
        failoverGo oracle6 (3 / 5) (0 + 1 + 1) (some 0) none 0 0 [c6] := rfl
    rw [hstep]
    rw [failoverGo_te_none oracle6 (3 / 5) 0 0 0 none 0 [c6] c6 "boom" rfl rfl
      (by simpa using hsel2)]
    rfl

/-- C6 amended: when every container is blocked at a selection with
`prefer_primary = true` — in particular at the initial selection of a
failover run — the primary container is force-restored (block cleared,
failure count reset) and selected rather than failing; consequently, for
a translator whose single container is blocked, the next failover run
restores and uses that container.  (Mid-run reselections after a general
translation error pass `prefer_primary = false` and may instead yield no
container.) -/
theorem C6_primary_restore {α : Type} :
    (∀ (cs : List TranslatorContainer) (lastUsed : Option ℕ) (now : ℚ),
        cs ≠ [] → (∀ c ∈ cs, c.is_blocked now = true) →
        ∃ pi p, primaryIndexOpt cs = some pi ∧ cs.get? pi = some p ∧
          getContainer true lastUsed now cs =
            some (pi, cs.set pi { p.restore with last_used_at := now })) ∧
    (∀ (c : TranslatorContainer) (oracle : ℕ → EngineOutcome α) (delaySec now : ℚ) (r : α),
        c.is_blocked now = true → oracle 0 = .ok r →
        (translateWithFailover oracle delaySec now [c]).1 = .ok r ∧
        (translateWithFailover oracle delaySec now [c]).2.2 = 1) := by
  refine ⟨fun cs lastUsed now hne hall => getContainer_all_blocked cs lastUsed now hne hall, ?_⟩
  intro c oracle delaySec now r hblocked horacle
  obtain ⟨pi, p, hpi, hget, hsel⟩ :=
    getContainer_all_blocked [c] none now (by simp) (by simpa using hblocked)
  have hpi0 : pi = 0 := by
    cases pi with
    | zero => rfl
    | succ n => simp at hget
  subst hpi0
  have hpc : c = p := by simpa using hget
  subst hpc
  unfold translateWithFailover
  rw [hsel]
  simp [failoverGo, horacle]

/-- Blocked container and succeeding oracle for the C6 witness. -/
def cB : TranslatorContainer := { name := "b", blocked_until := some 100 }

def oracleDone : ℕ → EngineOutcome String := fun _ => .ok "done"

/-- Witness for C6: with the single container blocked, the next failover
run restores it and succeeds with one engine call. -/
theorem C6_primary_restore_witness :
    cB.is_blocked 0 = true ∧ oracleDone 0 = .ok "done" ∧
    (translateWithFailover oracleDone (3 / 5) 0 [cB]).1 = .ok "done" ∧
    (translateWithFailover oracleDone (3 / 5) 0 [cB]).2.2 = 1 :=
  ⟨by decide, rfl,
    ((C6_primary_restore (α := String)).2 cB oracleDone (3 / 5) 0 "done" (by decide) rfl).1,
    ((C6_primary_restore (α := String)).2 cB oracleDone (3 / 5) 0 "done" (by decide) rfl).2⟩


/-! ## Theorems about `translate_blocks` and blank blocks (C8) -/

theorem buildRequestPairs_fst_get? (history : List ContextEntry) (contextLimit : ℕ)
    (src dst : String) :
    ∀ (blocks : List TextBlock) (i k : ℕ),
      (buildRequestPairs history contextLimit src dst blocks i).1.get? k =
        (blocks.get? k).map
          (fun b => if isBlank b.original_text then { b with translated_text := "" } else b) := by
  intro blocks
  induction blocks with
  | nil => intro i k; simp [buildRequestPairs]
  | cons b rest ih =>
    intro i k
    by_cases hbl : isBlank b.original_text
    · cases k with
      | zero => simp [buildRequestPairs, hbl]
      | succ k2 =>
        have ih' := ih (i + 1) k2
        simp only [List.get?_eq_getElem?] at ih'
        simp [buildRequestPairs, hbl, ih']
    · cases k with
      | zero => simp [buildRequestPairs, hbl]
      | succ k2 =>
        have ih' := ih (i + 1) k2
        simp only [List.get?_eq_getElem?] at ih'
        simp [buildRequestPairs, hbl, ih']

theorem buildRequestPairs_pairs (history : List ContextEntry) (contextLimit : ℕ)
    (src dst : String) :
    ∀ (blocks : List TextBlock) (i : ℕ) (p : ℕ × TranslationRequest),
      p ∈ (buildRequestPairs history contextLimit src dst blocks i).2 →
      ∃ k b, blocks.get? k = some b ∧ isBlank b.original_text = false ∧
        p.1 = i + k ∧ p.2.text = b.original_text := by
  intro blocks
  induction blocks with
  | nil => intro i p hp; simp [buildRequestPairs] at hp
  | cons b rest ih =>
    intro i p hp
    by_cases hbl : isBlank b.original_text
    · simp only [buildRequestPairs, hbl, if_true] at hp
      obtain ⟨k, b', hget, hnb, hidx, htext⟩ := ih (i + 1) p hp
      exact ⟨k + 1, b', by simpa using hget, hnb, by omega, htext⟩
    · simp only [buildRequestPairs, hbl, if_false] at hp
      rcases List.mem_cons.mp hp with rfl | hp2
      · exact ⟨0, b, rfl, Bool.of_not_eq_true hbl, by omega, rfl⟩
      · obtain ⟨k, b', hget, hnb, hidx, htext⟩ := ih (i + 1) p hp2
        exact ⟨k + 1, b', by simpa using hget, hnb, by omega, htext⟩

theorem applyResults_get?_of_not_mem (k : Knowledge) (maxLength : ℕ) :
    ∀ (l : List ((ℕ × TranslationRequest) × String)) (blocks : List TextBlock)
      (ctx : List ContextEntry) (i : ℕ),
      (∀ q ∈ l, q.1.1 ≠ i) →
      (applyResults k maxLength l blocks ctx).1.get? i = blocks.get? i := by
  intro l
  induction l with
  | nil => intro blocks ctx i _; rfl
  | cons q rest ih =>
    intro blocks ctx i hne
    obtain ⟨⟨j, req⟩, res⟩ := q
    have hji : j ≠ i := hne ((j, req), res) (List.mem_cons_self _ _)
    simp only [applyResults]
    rw [ih _ _ i (fun q' hq' => hne q' (List.mem_cons_of_mem _ hq'))]
    unfold setTranslated
    cases hget : blocks.get? j with
    | none => rfl
    | some bj => exact List.get?_set_ne _ _ hji

/-- Blank block with a pre-existing translation, for the C8
counterexample. -/
def bBlank : TextBlock := { id := "b1", original_text := " ", translated_text := "old" }

/-- C8 counterexample: `translate_blocks` on a whitespace-only block
leaves it untranslated (no request is built) but *overwrites* its
`translated_text` with the empty string instead of leaving the field
unchanged. -/
theorem C8_counterexample :
    translate_blocks {} {} (fun _ => []) [] 50 10 "ja" "en" [bBlank] =
      .ok ([{ id := "b1", original_text := " ", translated_text := "",
              block_type := "dialog" }], []) ∧
    ({ id := "b1", original_text := " ", translated_text := "",
       block_type := "dialog" } : TextBlock).translated_text ≠ bBlank.translated_text := by
  exact ⟨rfl, by decide⟩

/-- C8 amended: in `translate_blocks`, every block whose `original_text`
is empty or whitespace-only produces no `TranslationRequest` (every built
request carries the text of some non-blank block, so no engine call is
made on a blank block's behalf); the blank block's `translated_text` is
set to the empty string — not left unchanged — and its other fields are
untouched. -/
theorem C8_blank_blocks (caps : TranslatorCapabilities) (k : Knowledge)
    (engine : List TranslationRequest → List String)
    (history : List ContextEntry) (maxLength contextLimit : ℕ) (src dst : String)
    (blocks : List TextBlock) (i : ℕ) (b : TextBlock)
    (hb : blocks.get? i = some b) (hblank : isBlank b.original_text = true) :
    (∀ p ∈ (buildRequestPairs history contextLimit src dst blocks 0).2,
        ∃ j b', blocks.get? j = some b' ∧ isBlank b'.original_text = false ∧
          p.1 = j ∧ p.2.text = b'.original_text) ∧
    (∀ bs' ctx',
        translate_blocks caps k engine history maxLength contextLimit src dst blocks =
          .ok (bs', ctx') →
        bs'.get? i = some { b with translated_text := "" }) := by
  have hpairs : ∀ p ∈ (buildRequestPairs history contextLimit src dst blocks 0).2,
      ∃ j b', blocks.get? j = some b' ∧ isBlank b'.original_text = false ∧
        p.1 = j ∧ p.2.text = b'.original_text := by
    intro p hp
    obtain ⟨j, b', hget, hnb, hidx, htext⟩ :=
      buildRequestPairs_pairs history contextLimit src dst blocks 0 p hp
    exact ⟨j, b', hget, hnb, by omega, htext⟩
  refine ⟨hpairs, ?_⟩
  intro bs' ctx' hok
  have hbuilt : (buildRequestPairs history contextLimit src dst blocks 0).1.get? i =
      some { b with translated_text := "" } := by
    rw [buildRequestPairs_fst_get?, hb]
    simp [hblank]
  simp only [translate_blocks] at hok
  split at hok
  · rw [Except.ok.injEq, Prod.mk.injEq] at hok
    rw [← hok.1]
    exact hbuilt
  · split at hok
    · exact absurd hok (by simp)
    · rw [Except.ok.injEq, Prod.mk.injEq] at hok
      rw [← hok.1]
      rw [applyResults_get?_of_not_mem]
      · exact hbuilt
      · intro q hq
        have hq1 := (List.of_mem_zip hq).1
        obtain ⟨j, b', hget, hnb, hidx, _⟩ := hpairs q.1 hq1
        intro hcontra
        rw [hcontra] at hidx
        rw [← hidx] at hget
        rw [hb] at hget
        injection hget with hbb
        rw [← hbb] at hnb
        rw [hblank] at hnb
        exact Bool.noConfusion hnb


/-- Witness for C8: the concrete blank block `bBlank` gets its
`translated_text` set to the empty string by `translate_blocks`. -/
theorem C8_blank_blocks_witness :
    [bBlank].get? 0 = some bBlank ∧ isBlank bBlank.original_text = true ∧
    ([{ id := "b1", original_text := " ", translated_text := "",
        block_type := "dialog" }] : List TextBlock).get? 0 =
      some { bBlank with translated_text := "" } :=
  ⟨rfl, by decide,
    (C8_blank_blocks {} {} (fun _ => []) [] 50 10 "ja" "en" [bBlank] 0 bBlank rfl
        (by decide)).2
      [{ id := "b1", original_text := " ", translated_text := "", block_type := "dialog" }]
      [] rfl⟩

end Blume
